import Mathlib

/-!
Verification of the task-rescheduling engine of the AI-Study-Roadmap
repository (`src/utils/scheduler.ts`), over a shallow embedding of the
data model of `types.ts` and the three functions `addTime`,
`recalculateTotalTime` and `rescheduleRoadmap`.

Date strings: the engine manipulates dates in canonical `YYYY-MM-DD`
form, or the empty string / `undefined` for an unset date.  JavaScript
parses a `YYYY-MM-DD` string as midnight UTC, so a well-formed date
string corresponds one-to-one to an integer day index since the Unix
epoch, and its `getTime()` is that index times 86 400 000.
`toISOString().split('T')[0]` maps a timestamp back to the calendar
date containing it, i.e. floor-division of the timestamp by one day.
We embed a date value as `DateStr`: either `empty` (the empty string /
`undefined`) or `date d` (the canonical string of day index `d`).
-/

namespace AIStudyRoadmap

/-- Milliseconds per day. -/
def msPerDay : Int := 86400000

/-- `getTime()` of the largest representable JavaScript date. -/
def jsMaxMs : Int := 8640000000000000

/-- A date value of the engine: the empty string / `undefined`, or a
canonical `YYYY-MM-DD` string identified by its day index since the
Unix epoch. -/
inductive DateStr where
  | empty : DateStr
  | date (day : Int) : DateStr
deriving DecidableEq, Repr

/-- `new Date(s).getTime()` for a set date: day index times 86400000. -/
def DateStr.ms : DateStr → Int
  | .empty => 0
  | .date d => d * msPerDay

/-- JavaScript truthiness of the date string (empty string is falsy). -/
def DateStr.isSet : DateStr → Bool
  | .empty => false
  | .date _ => true

/-- A `YYYY-MM-DD` string can only denote years 0000–9999: its day
index lies between 0000-01-01 and 9999-12-31. -/
def DateStr.valid : DateStr → Prop
  | .empty => True
  | .date d => -719528 ≤ d ∧ d ≤ 2932896

instance (s : DateStr) : Decidable s.valid := by
  cases s <;> simp [DateStr.valid] <;> infer_instance

/-- `addTime` of `scheduler.ts`: add `diffMs` milliseconds to the
instant of the date string, and keep the date component of the result
(`toISOString().split('T')[0]`), i.e. floor the shifted instant to its
day.  Empty input is returned unchanged. -/
def addTime (dateStr : DateStr) (diffMs : Int) : DateStr :=
  match dateStr with
  | .empty => .empty
  | .date d => .date (Int.fdiv (d * msPerDay + diffMs) msPerDay)

inductive Priority where
  | High | Medium | Low
deriving DecidableEq, Repr

structure LastEditedBy where
  email : String
  at_ : String
deriving DecidableEq, Repr

structure SubTask where
  id : String
  title : String
  isCompleted : Bool
  notes : Option String
  lastEditedBy : Option LastEditedBy
deriving DecidableEq, Repr

structure Resource where
  id : String
  title : String
  url : String
deriving DecidableEq, Repr

structure Task where
  id : String
  title : String
  description : String
  estimatedMinutes : Int
  isCompleted : Bool
  completedAt : Option String
  priority : Priority
  startDate : DateStr
  endDate : DateStr
  notes : Option String
  subTasks : Option (List SubTask)
  resources : Option (List Resource)
  lastEditedBy : Option LastEditedBy
deriving DecidableEq, Repr

structure Module where
  id : String
  title : String
  description : String
  tasks : List Task
  isExpanded : Option Bool
deriving DecidableEq, Repr

structure Collaborator where
  email : String
  role : String
  status : Option String
deriving DecidableEq, Repr

structure Roadmap where
  id : Option String
  createdAt : Option String
  title : String
  description : String
  totalTimeEstimate : String
  modules : List Module
  user_id : Option String
  owner_email : Option String
  collaborators : Option (List Collaborator)
deriving DecidableEq, Repr

/-- The accumulator of `recalculateTotalTime`'s double `forEach` loop:
`minMs`/`maxMs` are the `getTime()` values of the tracked `minDate` and
`maxDate`, plus the `hasDates` flag. -/
structure ScanState where
  minMs : Int
  maxMs : Int
  hasDates : Bool
deriving DecidableEq, Repr

/-- One iteration of the inner loop of `recalculateTotalTime`: update
the running minimum from `startDate`, and the running maximum from
`endDate` when present, else from `startDate`. -/
def scanTask (st : ScanState) (t : Task) : ScanState :=
  let st1 :=
    match t.startDate with
    | .date s =>
      { st with minMs := if s * msPerDay < st.minMs then s * msPerDay else st.minMs,
                hasDates := true }
    | .empty => st
  match t.endDate, t.startDate with
  | .date e, _ =>
    { st1 with maxMs := if e * msPerDay > st1.maxMs then e * msPerDay else st1.maxMs }
  | .empty, .date s =>
    { st1 with maxMs := if s * msPerDay > st1.maxMs then s * msPerDay else st1.maxMs }
  | .empty, .empty => st1

/-- `recalculateTotalTime` of `scheduler.ts`.  `minDate` starts at the
maximal JavaScript date and `maxDate` at the minimal one; the loop is
the fold of `scanTask` over all tasks of all modules in stored order.
`Math.ceil` on the day quotient is embedded as Nat ceiling division and
`Math.round` on `diffDays / 7` as `(2 * diffDays + 7) / 14` (floor of
`diffDays / 7 + 1 / 2`). -/
def recalculateTotalTime (modules : List Module) : String :=
  let st := modules.foldl (fun acc m => m.tasks.foldl scanTask acc)
    ⟨jsMaxMs, -jsMaxMs, false⟩
  if !st.hasDates then "Not scheduled"
  else
    let diffTime : Nat := (st.maxMs - st.minMs).natAbs
    let diffDays : Nat := (diffTime + 86399999) / 86400000 + 1
    if diffDays > 30 then
      toString ((2 * diffDays + 7) / 14) ++ " weeks"
    else
      toString diffDays ++ " days"

/-- The `originalModule` / `originalTask` lookup of `rescheduleRoadmap`:
first module containing a task with the moved id, then the first such
task within it. -/
def findOriginalTask (roadmap : Roadmap) (movedId : String) : Option Task :=
  match roadmap.modules.find? (fun m => m.tasks.any (fun t => t.id == movedId)) with
  | none => none
  | some m => m.tasks.find? (fun t => t.id == movedId)

/-- The fast-path update: set `startDate` of every task with the moved
id, leave everything else as it is. -/
def fastUpdate (movedId : String) (newStartDate : DateStr) (modules : List Module) :
    List Module :=
  modules.map fun m =>
    { m with tasks := m.tasks.map fun t =>
        if t.id == movedId then { t with startDate := newStartDate } else t }

/-- One task of the cascade loop, threading the `foundMovedTask` flag:
the moved task gets the new start date and a shifted end date; a task
seen after the flag is set and having a start date is shifted on both
dates; every other task is returned unchanged. -/
def cascadeStep (movedId : String) (newStartDate : DateStr) (diffMs : Int)
    (found : Bool) (t : Task) : Bool × Task :=
  if t.id == movedId then
    (true, { t with startDate := newStartDate,
                    endDate := if t.endDate.isSet then addTime t.endDate diffMs
                               else .empty })
  else if found && t.startDate.isSet then
    (found, { t with startDate := addTime t.startDate diffMs,
                     endDate := if t.endDate.isSet then addTime t.endDate diffMs
                                else .empty })
  else (found, t)

/-- The inner `tasks.map` of the cascade, with the mutable
`foundMovedTask` flag threaded left to right. -/
def mapWithFlag (f : Bool → Task → Bool × Task) : Bool → List Task → Bool × List Task
  | b, [] => (b, [])
  | b, t :: ts =>
    let r := f b t
    let rest := mapWithFlag f r.1 ts
    (rest.1, r.2 :: rest.2)

/-- The outer `modules.map` of the cascade: the flag survives module
boundaries, as `foundMovedTask` is declared outside the map in the
source. -/
def cascadeModules (f : Bool → Task → Bool × Task) :
    Bool → List Module → Bool × List Module
  | b, [] => (b, [])
  | b, m :: ms =>
    let r := mapWithFlag f b m.tasks
    let rest := cascadeModules f r.1 ms
    (rest.1, { m with tasks := r.2 } :: rest.2)

/-- `rescheduleRoadmap` of `scheduler.ts`. -/
def rescheduleRoadmap (roadmap : Roadmap) (movedTask : Task) (newStartDate : DateStr) :
    Roadmap :=
  match findOriginalTask roadmap movedTask.id with
  | none =>
    { roadmap with modules := fastUpdate movedTask.id newStartDate roadmap.modules }
  | some ot =>
    if ot.startDate = .empty ∨ newStartDate = .empty ∨ ot.startDate = newStartDate then
      { roadmap with modules := fastUpdate movedTask.id newStartDate roadmap.modules }
    else
      let diffMs := newStartDate.ms - ot.startDate.ms
      let updated := cascadeModules (cascadeStep movedTask.id newStartDate diffMs)
        false roadmap.modules
      { roadmap with modules := updated.2,
                     totalTimeEstimate := recalculateTotalTime updated.2 }

/-- All tasks of a module list, modules in stored order and tasks in
stored order within each module: the global linear order of the
cascade. -/
def allTasks (modules : List Module) : List Task :=
  (modules.map Module.tasks).flatten


/-! ### Derived task updates of the cascade, as the spec describes them -/

/-- The update the cascade applies to the moved task: new start date,
end date (when present) shifted by the delta. -/
def moveTask (newStartDate : DateStr) (diffMs : Int) (t : Task) : Task :=
  { t with startDate := newStartDate,
           endDate := if t.endDate.isSet then addTime t.endDate diffMs else .empty }

/-- The update the cascade applies to a task after the moved one: shift
both dates by the delta when the task has a start date, otherwise leave
it untouched. -/
def shiftIfScheduled (diffMs : Int) (t : Task) : Task :=
  if t.startDate.isSet then
    { t with startDate := addTime t.startDate diffMs,
             endDate := if t.endDate.isSet then addTime t.endDate diffMs else .empty }
  else t

/-- The start-date instants contributing to `minDate`, in traversal
order. -/
def startMsList (L : List Task) : List Int :=
  L.filterMap fun t =>
    match t.startDate with
    | .date s => some (s * msPerDay)
    | .empty => none

/-- The instant a task contributes to `maxDate`: its end date when
present, else its start date, else nothing. -/
def maxCandMs (t : Task) : Option Int :=
  match t.endDate with
  | .date e => some (e * msPerDay)
  | .empty =>
    match t.startDate with
    | .date s => some (s * msPerDay)
    | .empty => none

/-- The instants contributing to `maxDate`, in traversal order. -/
def endMsList (L : List Task) : List Int := L.filterMap maxCandMs

/-! ### Small arithmetic and structure lemmas -/

theorem if_lt_eq_min (m x : Int) : (if x < m then x else m) = min m x := by
  rcases le_or_lt m x with h | h
  · simp [min_def, h, not_lt.mpr h]
  · simp [min_def, h, not_le.mpr h]

theorem if_gt_eq_max (m x : Int) : (if x > m then x else m) = max m x := by
  rcases le_or_lt x m with h | h
  · simp [max_def, h, not_lt.mpr h]
  · simp [max_def, h, le_of_lt h, not_le.mpr h]

theorem Task.set_startDate_self (t : Task) (d : DateStr) (h : t.startDate = d) :
    { t with startDate := d } = t := by
  cases t; cases h; rfl

theorem Module.set_tasks_self (m : Module) : { m with tasks := m.tasks } = m := rfl

/-! ### The scan loop of recalculateTotalTime -/

theorem scanTask_minMs (st : ScanState) (t : Task) :
    (scanTask st t).minMs =
      match t.startDate with
      | .date s => min st.minMs (s * msPerDay)
      | .empty => st.minMs := by
  cases he : t.endDate <;> cases hs : t.startDate <;>
    simp [scanTask, he, hs, if_lt_eq_min]

theorem scanTask_maxMs (st : ScanState) (t : Task) :
    (scanTask st t).maxMs =
      match maxCandMs t with
      | some x => max st.maxMs x
      | none => st.maxMs := by
  cases he : t.endDate <;> cases hs : t.startDate <;>
    simp [scanTask, maxCandMs, he, hs, if_gt_eq_max]

theorem scanTask_hasDates (st : ScanState) (t : Task) :
    (scanTask st t).hasDates = (st.hasDates || t.startDate.isSet) := by
  cases he : t.endDate <;> cases hs : t.startDate <;>
    simp [scanTask, DateStr.isSet, he, hs]

theorem foldl_scanTask_minMs (L : List Task) (st : ScanState) :
    (L.foldl scanTask st).minMs = (startMsList L).foldl min st.minMs := by
  induction L generalizing st with
  | nil => rfl
  | cons t L ih =>
    cases hs : t.startDate <;>
      simp [List.foldl_cons, startMsList, List.filterMap_cons, hs, ih,
            scanTask_minMs, scanTask_maxMs, scanTask_hasDates]

theorem foldl_scanTask_maxMs (L : List Task) (st : ScanState) :
    (L.foldl scanTask st).maxMs = (endMsList L).foldl max st.maxMs := by
  induction L generalizing st with
  | nil => rfl
  | cons t L ih =>
    rcases hc : maxCandMs t with _ | x <;>
      simp [List.foldl_cons, endMsList, List.filterMap_cons, hc, ih,
            scanTask_maxMs]

theorem foldl_scanTask_hasDates (L : List Task) (st : ScanState) :
    (L.foldl scanTask st).hasDates = (st.hasDates || L.any (fun t => t.startDate.isSet)) := by
  induction L generalizing st with
  | nil => simp
  | cons t L ih =>
    simp [List.foldl_cons, List.any_cons, ih, scanTask_hasDates, Bool.or_assoc]

theorem foldl_scan_modules (modules : List Module) (st : ScanState) :
    modules.foldl (fun acc m => m.tasks.foldl scanTask acc) st
      = (allTasks modules).foldl scanTask st := by
  induction modules generalizing st with
  | nil => rfl
  | cons m ms ih => simp [allTasks, List.foldl_append, ih]

theorem foldl_min_of_le (a : Int) (l : List Int) (h : ∀ x ∈ l, a ≤ x) :
    l.foldl min a = a := by
  induction l with
  | nil => rfl
  | cons x xs ih =>
    have hx : a ≤ x := h x (List.mem_cons_self x xs)
    have : min a x = a := min_eq_left hx
    simp [List.foldl_cons, this]
    exact ih (fun y hy => h y (List.mem_cons_of_mem x hy))

theorem foldl_min_eq (l : List Int) (a init : Int) (hmem : a ∈ l)
    (hle : ∀ x ∈ l, a ≤ x) (hinit : a ≤ init) : l.foldl min init = a := by
  induction l generalizing init with
  | nil => cases hmem
  | cons x xs ih =>
    rcases List.mem_cons.mp hmem with rfl | hmem'
    · simp [List.foldl_cons, min_eq_right hinit]
      exact foldl_min_of_le a xs (fun y hy => hle y (List.mem_cons_of_mem a hy))
    · simp only [List.foldl_cons]
      exact ih (min init x) hmem' (fun y hy => hle y (List.mem_cons_of_mem x hy))
        (le_min hinit (hle x (List.mem_cons_self x xs)))

theorem foldl_max_of_ge (a : Int) (l : List Int) (h : ∀ x ∈ l, x ≤ a) :
    l.foldl max a = a := by
  induction l with
  | nil => rfl
  | cons x xs ih =>
    have hx : x ≤ a := h x (List.mem_cons_self x xs)
    simp [List.foldl_cons, max_eq_left hx]
    exact ih (fun y hy => h y (List.mem_cons_of_mem x hy))

theorem foldl_max_eq (l : List Int) (a init : Int) (hmem : a ∈ l)
    (hle : ∀ x ∈ l, x ≤ a) (hinit : init ≤ a) : l.foldl max init = a := by
  induction l generalizing init with
  | nil => cases hmem
  | cons x xs ih =>
    rcases List.mem_cons.mp hmem with rfl | hmem'
    · simp [List.foldl_cons, max_eq_right hinit]
      exact foldl_max_of_ge a xs (fun y hy => hle y (List.mem_cons_of_mem a hy))
    · simp only [List.foldl_cons]
      exact ih (max init x) hmem' (fun y hy => hle y (List.mem_cons_of_mem x hy))
        (max_le hinit (hle x (List.mem_cons_self x xs)))

/-! ### find? and list helpers -/

theorem find?_append' {α} (l1 l2 : List α) (p : α → Bool) :
    (l1 ++ l2).find? p =
      match l1.find? p with
      | some a => some a
      | none => l2.find? p := by
  induction l1 with
  | nil => simp
  | cons x xs ih =>
    simp only [List.cons_append, List.find?]
    cases hpx : p x
    · simp [ih]
    · simp

theorem find?_first {α} (pre post : List α) (a : α) (p : α → Bool)
    (hpre : ∀ x ∈ pre, p x = false) (ha : p a = true) :
    (pre ++ a :: post).find? p = some a := by
  induction pre with
  | nil => simp [List.find?, ha]
  | cons x xs ih =>
    have hx := hpre x (List.mem_cons_self x xs)
    simp only [List.cons_append, List.find?, hx]
    exact ih (fun y hy => hpre y (List.mem_cons_of_mem x hy))

theorem map_eq_self' {α} (l : List α) (f : α → α) (h : ∀ x ∈ l, f x = x) :
    l.map f = l := by
  induction l with
  | nil => rfl
  | cons x xs ih =>
    simp [List.map_cons, h x (List.mem_cons_self x xs),
          ih (fun y hy => h y (List.mem_cons_of_mem x hy))]

theorem findTask_modules_eq (ms : List Module) (movedId : String) :
    (match ms.find? (fun m => m.tasks.any (fun t => t.id == movedId)) with
     | none => none
     | some m => m.tasks.find? (fun t => t.id == movedId))
      = (allTasks ms).find? (fun t => t.id == movedId) := by
  induction ms with
  | nil => rfl
  | cons m ms ih =>
    simp only [allTasks, List.map_cons, List.flatten_cons]
    rw [find?_append']
    cases hm : m.tasks.any (fun t => t.id == movedId) with
    | true =>
      obtain ⟨a, ha⟩ : ∃ a, m.tasks.find? (fun t => t.id == movedId) = some a := by
        rw [← Option.isSome_iff_exists, List.find?_isSome]
        exact List.any_eq_true.mp hm
      simp only [List.find?, hm, ha]
    | false =>
      have hall : ∀ x ∈ m.tasks, (x.id == movedId) = false := by
        intro x hx
        by_contra hpx
        simp only [Bool.not_eq_false] at hpx
        exact absurd (show m.tasks.any (fun t => t.id == movedId) = true from
          List.any_eq_true.mpr ⟨x, hx, hpx⟩) (by simp [hm])
      have hnone : m.tasks.find? (fun t => t.id == movedId) = none := by
        rw [List.find?_eq_none]
        intro x hx
        simp [hall x hx]
      simp only [List.find?, hm, hnone]
      simpa [allTasks] using ih

/-- The nested module/task lookup of the source equals a single lookup
over the global linear order of tasks. -/
theorem findOriginalTask_eq_flatten (roadmap : Roadmap) (movedId : String) :
    findOriginalTask roadmap movedId
      = (allTasks roadmap.modules).find? (fun t => t.id == movedId) :=
  findTask_modules_eq roadmap.modules movedId

/-! ### mapWithFlag and cascadeModules -/

theorem mapWithFlag_append (f : Bool → Task → Bool × Task) (b : Bool)
    (l1 l2 : List Task) :
    mapWithFlag f b (l1 ++ l2) =
      ((mapWithFlag f (mapWithFlag f b l1).1 l2).1,
       (mapWithFlag f b l1).2 ++ (mapWithFlag f (mapWithFlag f b l1).1 l2).2) := by
  induction l1 generalizing b with
  | nil => simp [mapWithFlag]
  | cons t ts ih => simp [mapWithFlag, ih]

theorem allTasks_cascadeModules (f : Bool → Task → Bool × Task) (b : Bool)
    (ms : List Module) :
    (cascadeModules f b ms).1 = (mapWithFlag f b (allTasks ms)).1 ∧
    allTasks (cascadeModules f b ms).2 = (mapWithFlag f b (allTasks ms)).2 := by
  induction ms generalizing b with
  | nil => simp [cascadeModules, allTasks, mapWithFlag]
  | cons m ms ih =>
    have h1 := (ih (mapWithFlag f b m.tasks).1).1
    have h2 := (ih (mapWithFlag f b m.tasks).1).2
    simp only [allTasks] at h1 h2
    constructor
    · simp only [cascadeModules, allTasks, List.map_cons, List.flatten_cons,
        mapWithFlag_append]
      exact h1
    · simp only [cascadeModules, allTasks, List.map_cons, List.flatten_cons,
        mapWithFlag_append]
      rw [h2]

theorem mapWithFlag_mem (f : Bool → Task → Bool × Task) (b : Bool)
    (l : List Task) (t' : Task) (h : t' ∈ (mapWithFlag f b l).2) :
    ∃ b0, ∃ t ∈ l, t' = (f b0 t).2 := by
  induction l generalizing b with
  | nil => simp [mapWithFlag] at h
  | cons t ts ih =>
    simp only [mapWithFlag, List.mem_cons] at h
    rcases h with h | h
    · exact ⟨b, t, List.mem_cons_self t ts, h⟩
    · rcases ih _ h with ⟨b0, t0, ht0, rfl⟩
      exact ⟨b0, t0, List.mem_cons_of_mem t ht0, rfl⟩

theorem cascadeModules_mem (f : Bool → Task → Bool × Task) (b : Bool)
    (ms : List Module) (m' : Module) (h : m' ∈ (cascadeModules f b ms).2) :
    ∃ b0, ∃ m ∈ ms, m' = { m with tasks := (mapWithFlag f b0 m.tasks).2 } := by
  induction ms generalizing b with
  | nil => simp [cascadeModules] at h
  | cons m ms ih =>
    simp only [cascadeModules, List.mem_cons] at h
    rcases h with h | h
    · exact ⟨b, m, List.mem_cons_self m ms, h⟩
    · rcases ih _ h with ⟨b0, m0, hm0, rfl⟩
      exact ⟨b0, m0, List.mem_cons_of_mem m hm0, rfl⟩

/-! ### Cascade step characterizations -/

theorem cascadeStep_not_moved_false (movedId : String) (d : DateStr) (diffMs : Int)
    (t : Task) (h : (t.id == movedId) = false) :
    cascadeStep movedId d diffMs false t = (false, t) := by
  simp [cascadeStep, h]

theorem cascadeStep_not_moved_true (movedId : String) (d : DateStr) (diffMs : Int)
    (t : Task) (h : (t.id == movedId) = false) :
    cascadeStep movedId d diffMs true t = (true, shiftIfScheduled diffMs t) := by
  cases hs : t.startDate <;>
    simp [cascadeStep, shiftIfScheduled, h, hs, DateStr.isSet]

theorem cascadeStep_moved (movedId : String) (d : DateStr) (diffMs : Int)
    (b : Bool) (t : Task) (h : (t.id == movedId) = true) :
    cascadeStep movedId d diffMs b t = (true, moveTask d diffMs t) := by
  simp [cascadeStep, moveTask, h]

theorem mapWithFlag_fresh_false (movedId : String) (d : DateStr) (diffMs : Int)
    (l : List Task) (h : ∀ t ∈ l, t.id ≠ movedId) :
    mapWithFlag (cascadeStep movedId d diffMs) false l = (false, l) := by
  induction l with
  | nil => rfl
  | cons t ts ih =>
    have ht : (t.id == movedId) = false := by
      simp [h t (List.mem_cons_self t ts)]
    simp [mapWithFlag, cascadeStep_not_moved_false _ _ _ _ ht,
          ih (fun y hy => h y (List.mem_cons_of_mem t hy))]

theorem mapWithFlag_fresh_true (movedId : String) (d : DateStr) (diffMs : Int)
    (l : List Task) (h : ∀ t ∈ l, t.id ≠ movedId) :
    mapWithFlag (cascadeStep movedId d diffMs) true l
      = (true, l.map (shiftIfScheduled diffMs)) := by
  induction l with
  | nil => rfl
  | cons t ts ih =>
    have ht : (t.id == movedId) = false := by
      simp [h t (List.mem_cons_self t ts)]
    simp [mapWithFlag, cascadeStep_not_moved_true _ _ _ _ ht,
          ih (fun y hy => h y (List.mem_cons_of_mem t hy))]

/-! ### fastUpdate characterizations -/

theorem allTasks_fastUpdate (movedId : String) (d : DateStr) (ms : List Module) :
    allTasks (fastUpdate movedId d ms)
      = (allTasks ms).map
          (fun t => if t.id == movedId then { t with startDate := d } else t) := by
  induction ms with
  | nil => rfl
  | cons m rest ih =>
    simp only [fastUpdate, allTasks, List.map_cons, List.flatten_cons,
      List.map_append] at *
    rw [ih]

theorem fastUpdate_id (movedId : String) (d : DateStr) (ms : List Module)
    (h : ∀ m ∈ ms, ∀ t ∈ m.tasks, t.id = movedId → t.startDate = d) :
    fastUpdate movedId d ms = ms := by
  unfold fastUpdate
  apply map_eq_self'
  intro m hm
  rw [map_eq_self']
  · intro t ht
    cases hbeq : t.id == movedId
    · simp
    · simp only [if_pos rfl]
      exact Task.set_startDate_self t d (h m hm t ht (by simpa using hbeq))

theorem mem_allTasks {t : Task} {ms : List Module} :
    t ∈ allTasks ms ↔ ∃ m ∈ ms, t ∈ m.tasks := by
  simp [allTasks, List.mem_flatten]

/-! ### Branch characterizations of rescheduleRoadmap -/

theorem reschedule_eq_fast (r : Roadmap) (mt : Task) (d : DateStr)
    (h : ∀ ot, findOriginalTask r mt.id = some ot →
      ot.startDate = .empty ∨ d = .empty ∨ ot.startDate = d) :
    rescheduleRoadmap r mt d = { r with modules := fastUpdate mt.id d r.modules } := by
  unfold rescheduleRoadmap
  cases hf : findOriginalTask r mt.id with
  | none => rfl
  | some ot => simp [h ot hf]

theorem reschedule_eq_cascade (r : Roadmap) (mt : Task) (d : DateStr) (ot : Task)
    (hf : findOriginalTask r mt.id = some ot) (h1 : ot.startDate ≠ .empty)
    (h2 : d ≠ .empty) (h3 : ot.startDate ≠ d) :
    rescheduleRoadmap r mt d =
      { r with
        modules := (cascadeModules (cascadeStep mt.id d (d.ms - ot.startDate.ms))
          false r.modules).2,
        totalTimeEstimate := recalculateTotalTime
          ((cascadeModules (cascadeStep mt.id d (d.ms - ot.startDate.ms))
            false r.modules).2) } := by
  unfold rescheduleRoadmap
  rw [hf]
  simp [h1, h2, h3]

/-! ### Sample data for concrete evaluations -/

/-- A task with the given id and dates; the remaining fields are fixed
sample values. -/
def sampleTask (i : String) (s e : DateStr) : Task :=
  { id := i, title := "Task " ++ i, description := "", estimatedMinutes := 30,
    isCompleted := false, completedAt := none, priority := .Medium,
    startDate := s, endDate := e, notes := none, subTasks := none,
    resources := none, lastEditedBy := none }

/-- A module with the given id and tasks. -/
def sampleModule (i : String) (ts : List Task) : Module :=
  { id := i, title := "Module " ++ i, description := "", tasks := ts,
    isExpanded := none }

/-- A roadmap with the given modules and stored duration summary. -/
def sampleRoadmap (ms : List Module) (est : String) : Roadmap :=
  { id := none, createdAt := none, title := "Roadmap", description := "",
    totalTimeEstimate := est, modules := ms, user_id := none,
    owner_email := none, collaborators := none }

/-! ### C4: unknown moved-task id -/

/-- C4: if `movedTask.id` occurs in no task of any module,
`rescheduleRoadmap` returns a roadmap equal to its input — no task
changes, `totalTimeEstimate` is unchanged, and (the embedding being
total) no exception is thrown — for every roadmap and every new start
date. -/
theorem rescheduleRoadmap_unknown_id_noop (r : Roadmap) (mt : Task) (d : DateStr)
    (h : ∀ m ∈ r.modules, ∀ t ∈ m.tasks, t.id ≠ mt.id) :
    rescheduleRoadmap r mt d = r := by
  have hfind : findOriginalTask r mt.id = none := by
    rw [findOriginalTask_eq_flatten, List.find?_eq_none]
    intro t ht
    rcases mem_allTasks.mp ht with ⟨m, hm, htm⟩
    simp [h m hm t htm]
  rw [reschedule_eq_fast r mt d (fun ot hot => by rw [hfind] at hot; cases hot)]
  rw [fastUpdate_id _ _ _ (fun m hm t htm hid => absurd hid (h m hm t htm))]

/-- Witness for C4 at a concrete roadmap and an id absent from it. -/
theorem rescheduleRoadmap_unknown_id_noop_witness :
    rescheduleRoadmap
      (sampleRoadmap [sampleModule "m1" [sampleTask "a" (.date 19723) .empty]] "1 days")
      (sampleTask "zz" .empty .empty) (.date 19730)
      = sampleRoadmap [sampleModule "m1" [sampleTask "a" (.date 19723) .empty]] "1 days" :=
  rescheduleRoadmap_unknown_id_noop _ _ _ (by decide)

/-! ### C7: the "Not scheduled" sentinel -/

/-- C7: whenever no task in any module has a start date — the module
list may be empty, and tasks may still carry end dates —
`recalculateTotalTime` returns exactly `"Not scheduled"` (and, the
embedding being total, never crashes). -/
theorem recalculateTotalTime_not_scheduled (modules : List Module)
    (h : ∀ m ∈ modules, ∀ t ∈ m.tasks, t.startDate = .empty) :
    recalculateTotalTime modules = "Not scheduled" := by
  have hdates : ((allTasks modules).foldl scanTask
      ⟨jsMaxMs, -jsMaxMs, false⟩).hasDates = false := by
    rw [foldl_scanTask_hasDates]
    simp only [Bool.false_or, List.any_eq_false]
    intro t ht
    rcases mem_allTasks.mp ht with ⟨m, hm, htm⟩
    simp [h m hm t htm, DateStr.isSet]
  simp only [recalculateTotalTime, foldl_scan_modules, hdates, Bool.not_false,
    if_pos]

/-- Witness for C7: a roadmap whose single task has an end date but no
start date. -/
theorem recalculateTotalTime_not_scheduled_witness :
    recalculateTotalTime [sampleModule "m1" [sampleTask "a" .empty (.date 10)]]
      = "Not scheduled" :=
  recalculateTotalTime_not_scheduled _ (by decide)

/-! ### C9: additive composition of addTime -/

/-- Counterexample to C9 as stated: two successive twelve-hour shifts
of 1970-01-01 stay on 1970-01-01 (each result is truncated back to the
date), while a single twenty-four-hour shift reaches 1970-01-02. -/
theorem addTime_compose_counterexample :
    ¬ (addTime (addTime (.date 0) 43200000) 43200000
        = addTime (.date 0) (43200000 + 43200000)) := by decide

/-- C9 as amended: additive composition of `addTime` holds when the
first delta is a whole number of days in milliseconds (as every delta
computed by the engine is, being a difference of two midnight
instants); `addTime` truncates its result to the calendar date, so a
first delta with a fractional day part can drop time-of-day carry. -/
theorem addTime_compose_whole_days (day d1 d2 : Int) (h : d1 % msPerDay = 0) :
    addTime (addTime (.date day) d1) d2 = addTime (.date day) (d1 + d2) := by
  obtain ⟨k, rfl⟩ : ∃ k, d1 = msPerDay * k :=
    (Int.dvd_of_emod_eq_zero h).elim fun k hk => ⟨k, hk⟩
  have hpos : (0 : Int) ≤ msPerDay := by decide
  have hne : (msPerDay : Int) ≠ 0 := by decide
  simp only [addTime, Int.fdiv_eq_ediv _ hpos]
  have h1 : (day * msPerDay + msPerDay * k) / msPerDay = day + k := by
    rw [show day * msPerDay + msPerDay * k = (day + k) * msPerDay by ring,
        Int.mul_ediv_cancel _ hne]
  rw [h1]
  congr 1
  ring_nf

/-- Witness for C9 as amended: a one-day shift followed by a
one-millisecond shift equals a single combined shift. -/
theorem addTime_compose_whole_days_witness :
    addTime (addTime (.date 0) 86400000) 1 = addTime (.date 0) (86400000 + 1) :=
  addTime_compose_whole_days 0 86400000 1 (by decide)

/-! ### C2: when the duration summary is recomputed -/

/-- The condition under which `rescheduleRoadmap` takes its cascade
branch: the moved task is found with a set start date, the new start
date is set, and the two differ. -/
def cascadeApplies (r : Roadmap) (movedId : String) (d : DateStr) : Bool :=
  match findOriginalTask r movedId with
  | none => false
  | some ot => ot.startDate.isSet && d.isSet && !(ot.startDate == d)

/-- Counterexample to C2 as stated: clearing the only task's start date
goes through the fast path, which changes the set of task dates but
leaves `totalTimeEstimate` at its stored value ("1 days") instead of
the recomputed "Not scheduled". -/
theorem totalTimeEstimate_stale_counterexample :
    (rescheduleRoadmap
        (sampleRoadmap [sampleModule "m1" [sampleTask "a" (.date 19723) .empty]] "1 days")
        (sampleTask "a" (.date 19723) .empty) .empty).totalTimeEstimate
      ≠ recalculateTotalTime
          (rescheduleRoadmap
            (sampleRoadmap [sampleModule "m1" [sampleTask "a" (.date 19723) .empty]] "1 days")
            (sampleTask "a" (.date 19723) .empty) .empty).modules := by decide

/-- C2 as amended: after a cascade-branch call the returned roadmap's
`totalTimeEstimate` equals `recalculateTotalTime` of its modules; on
every other branch (fast path, including date-changing fast-path
edits, and unknown id) `totalTimeEstimate` is returned unchanged from
the input roadmap. -/
theorem rescheduleRoadmap_totalTimeEstimate (r : Roadmap) (mt : Task) (d : DateStr) :
    (rescheduleRoadmap r mt d).totalTimeEstimate =
      if cascadeApplies r mt.id d then
        recalculateTotalTime (rescheduleRoadmap r mt d).modules
      else r.totalTimeEstimate := by
  cases hf : findOriginalTask r mt.id with
  | none =>
    rw [reschedule_eq_fast r mt d (fun ot hot => by rw [hf] at hot; cases hot)]
    simp [cascadeApplies, hf]
  | some ot =>
    by_cases hc : ot.startDate = .empty ∨ d = .empty ∨ ot.startDate = d
    · rw [reschedule_eq_fast r mt d (fun ot' hot' => by
        rw [hf] at hot'; cases hot'; exact hc)]
      have : cascadeApplies r mt.id d = false := by
        unfold cascadeApplies
        rw [hf]
        rcases hc with h | h | h <;> simp [h, DateStr.isSet]
      simp [this]
    · push_neg at hc
      rw [reschedule_eq_cascade r mt d ot hf hc.1 hc.2.1 hc.2.2]
      have : cascadeApplies r mt.id d = true := by
        unfold cascadeApplies
        rw [hf]
        cases hso : ot.startDate <;> cases hd : d <;>
          simp_all [DateStr.isSet]
      simp [this]

/-! ### Frame relations -/

/-- All task fields except the two dates. -/
def SameTaskCore (t t' : Task) : Prop :=
  t'.id = t.id ∧ t'.title = t.title ∧ t'.description = t.description ∧
  t'.estimatedMinutes = t.estimatedMinutes ∧ t'.isCompleted = t.isCompleted ∧
  t'.completedAt = t.completedAt ∧ t'.priority = t.priority ∧
  t'.notes = t.notes ∧ t'.subTasks = t.subTasks ∧
  t'.resources = t.resources ∧ t'.lastEditedBy = t.lastEditedBy

/-- All module fields except the dates inside its tasks, with the task
sequence preserved position by position. -/
def SameModuleCore (m m' : Module) : Prop :=
  m'.id = m.id ∧ m'.title = m.title ∧ m'.description = m.description ∧
  m'.isExpanded = m.isExpanded ∧ List.Forall₂ SameTaskCore m.tasks m'.tasks

theorem sameTaskCore_refl (t : Task) : SameTaskCore t t := by
  simp [SameTaskCore]

theorem sameTaskCore_set_dates (t : Task) (s e : DateStr) :
    SameTaskCore t { t with startDate := s, endDate := e } := by
  simp [SameTaskCore]

theorem sameTaskCore_set_start (t : Task) (s : DateStr) :
    SameTaskCore t { t with startDate := s } := by
  simp [SameTaskCore]

theorem cascadeStep_core (movedId : String) (d : DateStr) (diffMs : Int)
    (b : Bool) (t : Task) :
    SameTaskCore t ((cascadeStep movedId d diffMs b t).2) := by
  unfold cascadeStep
  split_ifs <;> simp [SameTaskCore]

theorem forall₂_map_of {α : Type} {R : α → α → Prop} (f : α → α)
    (h : ∀ x, R x (f x)) (l : List α) : List.Forall₂ R l (l.map f) := by
  induction l with
  | nil => exact List.Forall₂.nil
  | cons x xs ih => exact List.Forall₂.cons (h x) ih

theorem mapWithFlag_forall₂ {R : Task → Task → Prop}
    (f : Bool → Task → Bool × Task) (h : ∀ b t, R t ((f b t).2)) (b : Bool)
    (l : List Task) : List.Forall₂ R l (mapWithFlag f b l).2 := by
  induction l generalizing b with
  | nil => exact List.Forall₂.nil
  | cons t ts ih => exact List.Forall₂.cons (h b t) (ih _)

theorem fastUpdate_forall₂ (movedId : String) (d : DateStr) (ms : List Module) :
    List.Forall₂ SameModuleCore ms (fastUpdate movedId d ms) := by
  apply forall₂_map_of (R := SameModuleCore)
  intro m
  refine ⟨rfl, rfl, rfl, rfl, ?_⟩
  apply forall₂_map_of
  intro t
  by_cases hbeq : (t.id == movedId) = true
  · simp only [hbeq, if_true]
    exact sameTaskCore_set_start t d
  · simp only [Bool.not_eq_true] at hbeq
    simp only [hbeq, Bool.false_eq_true, if_false]
    exact sameTaskCore_refl t

theorem cascadeModules_forall₂ (f : Bool → Task → Bool × Task)
    (h : ∀ b t, SameTaskCore t ((f b t).2)) (b : Bool) (ms : List Module) :
    List.Forall₂ SameModuleCore ms (cascadeModules f b ms).2 := by
  induction ms generalizing b with
  | nil => exact List.Forall₂.nil
  | cons m rest ih =>
    exact List.Forall₂.cons ⟨rfl, rfl, rfl, rfl, mapWithFlag_forall₂ f h b m.tasks⟩
      (ih _)

/-! ### C5: the reschedule engine's frame -/

/-- C5: on every call — fast path, cascade, or unknown id —
`rescheduleRoadmap` keeps the module count, keeps every module's task
count and order, and keeps every task's id, title, description,
priority, estimatedMinutes, isCompleted, completedAt, subTasks and
resources; only task `startDate`/`endDate` and the roadmap's
`totalTimeEstimate` can change, and no task or module is created,
deleted or reordered. -/
theorem rescheduleRoadmap_frame (r : Roadmap) (mt : Task) (d : DateStr) :
    (rescheduleRoadmap r mt d).id = r.id ∧
    (rescheduleRoadmap r mt d).createdAt = r.createdAt ∧
    (rescheduleRoadmap r mt d).title = r.title ∧
    (rescheduleRoadmap r mt d).description = r.description ∧
    (rescheduleRoadmap r mt d).user_id = r.user_id ∧
    (rescheduleRoadmap r mt d).owner_email = r.owner_email ∧
    (rescheduleRoadmap r mt d).collaborators = r.collaborators ∧
    (rescheduleRoadmap r mt d).modules.length = r.modules.length ∧
    List.Forall₂ SameModuleCore r.modules (rescheduleRoadmap r mt d).modules := by
  cases hf : findOriginalTask r mt.id with
  | none =>
    rw [reschedule_eq_fast r mt d (fun ot' hot' => by rw [hf] at hot'; cases hot')]
    have hF := fastUpdate_forall₂ mt.id d r.modules
    exact ⟨rfl, rfl, rfl, rfl, rfl, rfl, rfl, hF.length_eq.symm, hF⟩
  | some ot =>
    by_cases hc : ot.startDate = .empty ∨ d = .empty ∨ ot.startDate = d
    · rw [reschedule_eq_fast r mt d (fun ot' hot' => by
        rw [hf] at hot'; cases hot'; exact hc)]
      have hF := fastUpdate_forall₂ mt.id d r.modules
      exact ⟨rfl, rfl, rfl, rfl, rfl, rfl, rfl, hF.length_eq.symm, hF⟩
    · push_neg at hc
      rw [reschedule_eq_cascade r mt d ot hf hc.1 hc.2.1 hc.2.2]
      have hF := cascadeModules_forall₂ (cascadeStep mt.id d (d.ms - ot.startDate.ms))
        (cascadeStep_core mt.id d (d.ms - ot.startDate.ms)) false r.modules
      exact ⟨rfl, rfl, rfl, rfl, rfl, rfl, rfl, hF.length_eq.symm, hF⟩

/-! ### C3: the fast path -/

/-- C3: when the task located by `movedTask.id` has no start date, or
the new start date is empty, or it equals the located task's current
start date, `rescheduleRoadmap` only sets that task's `startDate` to
the new value: every other task is returned field-for-field unchanged
at its position, module structure is untouched, `totalTimeEstimate`
keeps its stored value, and no cascade shift happens. -/
theorem rescheduleRoadmap_fast_path (r : Roadmap) (mt : Task) (d : DateStr) (ot : Task)
    (hf : findOriginalTask r mt.id = some ot)
    (hcond : ot.startDate = .empty ∨ d = .empty ∨ ot.startDate = d) :
    (rescheduleRoadmap r mt d).totalTimeEstimate = r.totalTimeEstimate ∧
    (rescheduleRoadmap r mt d).modules.length = r.modules.length ∧
    ∀ (i : Nat) (m : Module), r.modules[i]? = some m →
      ∃ m' : Module, (rescheduleRoadmap r mt d).modules[i]? = some m' ∧
        m'.id = m.id ∧ m'.title = m.title ∧ m'.description = m.description ∧
        m'.isExpanded = m.isExpanded ∧ m'.tasks.length = m.tasks.length ∧
        ∀ (j : Nat) (t : Task), m.tasks[j]? = some t →
          m'.tasks[j]? = some (if t.id == mt.id then { t with startDate := d } else t) := by
  rw [reschedule_eq_fast r mt d (fun ot' hot' => by
    rw [hf] at hot'; cases hot'; exact hcond)]
  refine ⟨rfl, by simp [fastUpdate], ?_⟩
  intro i m hm
  refine ⟨{ m with tasks := m.tasks.map fun t =>
      if t.id == mt.id then { t with startDate := d } else t },
    ?_, rfl, rfl, rfl, rfl, by simp, ?_⟩
  · show (fastUpdate mt.id d r.modules)[i]? = _
    rw [fastUpdate, List.getElem?_map, hm, Option.map_some']
  · intro j t ht
    show (m.tasks.map fun t =>
      if t.id == mt.id then { t with startDate := d } else t)[j]? = _
    rw [List.getElem?_map, ht, Option.map_some']

/-- Witness for C3: moving a task to its own current start date goes
through the fast path and keeps the stored summary. -/
theorem rescheduleRoadmap_fast_path_witness :
    findOriginalTask
        (sampleRoadmap [sampleModule "m1"
          [sampleTask "a" (.date 19723) .empty, sampleTask "b" (.date 19725) .empty]] "3 days")
        "a" = some (sampleTask "a" (.date 19723) .empty) ∧
    (rescheduleRoadmap
        (sampleRoadmap [sampleModule "m1"
          [sampleTask "a" (.date 19723) .empty, sampleTask "b" (.date 19725) .empty]] "3 days")
        (sampleTask "a" (.date 19723) .empty) (.date 19723)).totalTimeEstimate
      = "3 days" :=
  ⟨by decide,
   (rescheduleRoadmap_fast_path
      (sampleRoadmap [sampleModule "m1"
        [sampleTask "a" (.date 19723) .empty, sampleTask "b" (.date 19725) .empty]] "3 days")
      (sampleTask "a" (.date 19723) .empty) (.date 19723)
      (sampleTask "a" (.date 19723) .empty) (by decide) (by decide)).1⟩

/-! ### Every task carrying the moved id ends up with the new start date -/

theorem cascadeStep_snd_id (movedId : String) (d : DateStr) (diffMs : Int)
    (b : Bool) (t : Task) : ((cascadeStep movedId d diffMs b t).2).id = t.id := by
  unfold cascadeStep
  split_ifs <;> rfl

theorem fastUpdate_start_set (movedId : String) (d : DateStr) (ms : List Module) :
    ∀ m' ∈ fastUpdate movedId d ms, ∀ t' ∈ m'.tasks, t'.id = movedId →
      t'.startDate = d := by
  intro m' hm' t' ht' hid
  rcases List.mem_map.mp hm' with ⟨m, _, rfl⟩
  rcases List.mem_map.mp ht' with ⟨t, _, rfl⟩
  cases hbeq : (t.id == movedId) with
  | true => simp [hbeq]
  | false =>
    have hne : t.id ≠ movedId := by simpa using hbeq
    simp only [hbeq, Bool.false_eq_true, if_false] at hid
    exact absurd hid hne

theorem reschedule_start_set (r : Roadmap) (mt : Task) (d : DateStr) :
    ∀ m ∈ (rescheduleRoadmap r mt d).modules, ∀ t ∈ m.tasks,
      t.id = mt.id → t.startDate = d := by
  cases hf : findOriginalTask r mt.id with
  | none =>
    rw [reschedule_eq_fast r mt d (fun ot' hot' => by rw [hf] at hot'; cases hot')]
    exact fastUpdate_start_set mt.id d r.modules
  | some ot =>
    by_cases hc : ot.startDate = .empty ∨ d = .empty ∨ ot.startDate = d
    · rw [reschedule_eq_fast r mt d (fun ot' hot' => by
        rw [hf] at hot'; cases hot'; exact hc)]
      exact fastUpdate_start_set mt.id d r.modules
    · push_neg at hc
      rw [reschedule_eq_cascade r mt d ot hf hc.1 hc.2.1 hc.2.2]
      intro m' hm' t' ht' hid
      rcases cascadeModules_mem _ _ _ _ hm' with ⟨b0, m, _, rfl⟩
      replace ht' : t' ∈ (mapWithFlag
        (cascadeStep mt.id d (d.ms - ot.startDate.ms)) b0 m.tasks).2 := ht'
      rcases mapWithFlag_mem _ _ _ _ ht' with ⟨b1, t, _, rfl⟩
      rw [cascadeStep_snd_id] at hid
      rw [cascadeStep_moved mt.id d _ b1 t (by simp [hid])]
      rfl

/-! ### C10: idempotence of rescheduleRoadmap -/

/-- C10: repeating the same reschedule call is a no-op — after the
first call every task carrying the moved id already holds the new
start date, so the second call always lands in the fast path with an
equal (or equally empty) date and changes nothing. -/
theorem rescheduleRoadmap_idempotent (r : Roadmap) (mt : Task) (d : DateStr) :
    rescheduleRoadmap (rescheduleRoadmap r mt d) mt d = rescheduleRoadmap r mt d := by
  have hB := reschedule_start_set r mt d
  have hfast : ∀ ot, findOriginalTask (rescheduleRoadmap r mt d) mt.id = some ot →
      ot.startDate = .empty ∨ d = .empty ∨ ot.startDate = d := by
    intro ot hot
    rw [findOriginalTask_eq_flatten] at hot
    have hmem := List.mem_of_find?_eq_some hot
    have hp := List.find?_some hot
    rcases mem_allTasks.mp hmem with ⟨m, hm, htm⟩
    exact Or.inr (Or.inr (hB m hm ot htm (by simpa using hp)))
  rw [reschedule_eq_fast _ mt d hfast,
      fastUpdate_id mt.id d (rescheduleRoadmap r mt d).modules hB]

/-! ### C1: the cascade path -/

theorem mapWithFlag_cons (f : Bool → Task → Bool × Task) (b : Bool) (t : Task)
    (ts : List Task) :
    mapWithFlag f b (t :: ts)
      = ((mapWithFlag f (f b t).1 ts).1, (f b t).2 :: (mapWithFlag f (f b t).1 ts).2) :=
  rfl

/-- C1: on the cascade path (moved task found with a set start date,
new start date set and different), with the global linear order of
tasks split as `pre ++ t0 :: post` around the moved task `t0` (the
moved id occurring nowhere else), `rescheduleRoadmap` computes
`delta = newStartDate − oldStartDate` in milliseconds, gives the moved
task the new start date and shifts its end date (when present) by
`delta` via `addTime`, shifts every later task having a start date by
`delta` on both dates, and leaves every task before the moved one, and
every later task without a start date, unchanged. -/
theorem rescheduleRoadmap_cascade (r : Roadmap) (mt : Task) (dOld dNew : Int)
    (pre post : List Task) (t0 : Task)
    (hsplit : allTasks r.modules = pre ++ t0 :: post)
    (hid : t0.id = mt.id)
    (hpre : ∀ t ∈ pre, t.id ≠ mt.id)
    (hpost : ∀ t ∈ post, t.id ≠ mt.id)
    (hold : t0.startDate = .date dOld)
    (hne : dNew ≠ dOld) :
    allTasks (rescheduleRoadmap r mt (.date dNew)).modules
      = pre
        ++ moveTask (.date dNew) (dNew * msPerDay - dOld * msPerDay) t0
        :: post.map (shiftIfScheduled (dNew * msPerDay - dOld * msPerDay)) := by
  have hfind : findOriginalTask r mt.id = some t0 := by
    rw [findOriginalTask_eq_flatten, hsplit]
    exact find?_first pre (t0 :: post).tail t0 _
      (fun x hx => by simp [hpre x hx]) (by simp [hid])
  have h1 : t0.startDate ≠ .empty := by rw [hold]; intro h; cases h
  have h2 : (DateStr.date dNew) ≠ .empty := by intro h; cases h
  have h3 : t0.startDate ≠ .date dNew := by
    rw [hold]
    intro h
    exact hne (by cases h; rfl)
  rw [reschedule_eq_cascade r mt (.date dNew) t0 hfind h1 h2 h3]
  have hdiff : (DateStr.date dNew).ms - t0.startDate.ms
      = dNew * msPerDay - dOld * msPerDay := by
    rw [hold]; rfl
  rw [show ({ r with
        modules := (cascadeModules (cascadeStep mt.id (.date dNew)
          ((DateStr.date dNew).ms - t0.startDate.ms)) false r.modules).2,
        totalTimeEstimate := recalculateTotalTime
          ((cascadeModules (cascadeStep mt.id (.date dNew)
            ((DateStr.date dNew).ms - t0.startDate.ms)) false r.modules).2) } : Roadmap).modules
      = (cascadeModules (cascadeStep mt.id (.date dNew)
          ((DateStr.date dNew).ms - t0.startDate.ms)) false r.modules).2 from rfl]
  rw [(allTasks_cascadeModules _ false r.modules).2, hsplit, hdiff]
  rw [mapWithFlag_append, mapWithFlag_fresh_false _ _ _ pre hpre]
  rw [mapWithFlag_cons,
      cascadeStep_moved mt.id (.date dNew) _ false t0 (by simp [hid]),
      mapWithFlag_fresh_true _ _ _ post hpost]

/-- Witness for C1 at the spec's own scenario: modules [X, Y] and [Z]
dated Jan 1 / Jan 3 / Jan 5 of 2024 (day indices 19723/19725/19727);
moving X one day later shifts Y and Z by one day. -/
theorem rescheduleRoadmap_cascade_witness :
    allTasks (rescheduleRoadmap
        (sampleRoadmap
          [sampleModule "A" [sampleTask "X" (.date 19723) .empty,
                             sampleTask "Y" (.date 19725) .empty],
           sampleModule "B" [sampleTask "Z" (.date 19727) .empty]] "5 days")
        (sampleTask "X" (.date 19723) .empty) (.date 19724)).modules
      = [] ++ moveTask (.date 19724) (19724 * msPerDay - 19723 * msPerDay)
            (sampleTask "X" (.date 19723) .empty)
          :: [sampleTask "Y" (.date 19725) .empty,
              sampleTask "Z" (.date 19727) .empty].map
               (shiftIfScheduled (19724 * msPerDay - 19723 * msPerDay)) :=
  rescheduleRoadmap_cascade _ _ 19723 19724 []
    [sampleTask "Y" (.date 19725) .empty, sampleTask "Z" (.date 19727) .empty]
    (sampleTask "X" (.date 19723) .empty)
    (by decide) (by decide) (by decide) (by decide) (by decide) (by decide)

/-! ### C6: the scheduled-span formula -/

theorem startMs_bounds (L : List Task)
    (hvalid : ∀ t ∈ L, t.startDate.valid ∧ t.endDate.valid) :
    ∀ x ∈ startMsList L, -719528 * msPerDay ≤ x ∧ x ≤ 2932896 * msPerDay := by
  intro x hx
  rcases List.mem_filterMap.mp hx with ⟨t, ht, hft⟩
  cases hs : t.startDate with
  | empty => rw [hs] at hft; cases hft
  | date s =>
    rw [hs] at hft
    have hx' : s * msPerDay = x := by cases hft; rfl
    have hv := (hvalid t ht).1
    rw [hs] at hv
    rcases hv with ⟨hlo, hhi⟩
    subst hx'
    constructor
    · exact mul_le_mul_of_nonneg_right hlo (by decide)
    · exact mul_le_mul_of_nonneg_right hhi (by decide)

theorem endMs_bounds (L : List Task)
    (hvalid : ∀ t ∈ L, t.startDate.valid ∧ t.endDate.valid) :
    ∀ x ∈ endMsList L, -719528 * msPerDay ≤ x ∧ x ≤ 2932896 * msPerDay := by
  intro x hx
  rcases List.mem_filterMap.mp hx with ⟨t, ht, hft⟩
  unfold maxCandMs at hft
  cases he : t.endDate with
  | date e =>
    rw [he] at hft
    have hx' : e * msPerDay = x := by cases hft; rfl
    have hv := (hvalid t ht).2
    rw [he] at hv
    rcases hv with ⟨hlo, hhi⟩
    subst hx'
    exact ⟨mul_le_mul_of_nonneg_right hlo (by decide),
           mul_le_mul_of_nonneg_right hhi (by decide)⟩
  | empty =>
    rw [he] at hft
    cases hs : t.startDate with
    | empty => rw [hs] at hft; cases hft
    | date s =>
      rw [hs] at hft
      have hx' : s * msPerDay = x := by cases hft; rfl
      have hv := (hvalid t ht).1
      rw [hs] at hv
      rcases hv with ⟨hlo, hhi⟩
      subst hx'
      exact ⟨mul_le_mul_of_nonneg_right hlo (by decide),
             mul_le_mul_of_nonneg_right hhi (by decide)⟩

/-- C6: when at least one task has a start date, the summary is
computed from `minDate` = the minimum start date over all tasks and
`maxDate` = the maximum over all tasks of the end date when present,
else the start date: `diffDays = ceil(|maxDate − minDate| in days) + 1`,
rendered as `"<N> weeks"` with `N = diffDays / 7` rounded to the
nearest whole week when `diffDays > 30`, else as `"<diffDays> days"`. -/
theorem recalculateTotalTime_span (modules : List Module) (mn mx : Int)
    (hvalid : ∀ t ∈ allTasks modules, t.startDate.valid ∧ t.endDate.valid)
    (hmn_mem : mn ∈ startMsList (allTasks modules))
    (hmn_min : ∀ x ∈ startMsList (allTasks modules), mn ≤ x)
    (hmx_mem : mx ∈ endMsList (allTasks modules))
    (hmx_max : ∀ x ∈ endMsList (allTasks modules), x ≤ mx) :
    recalculateTotalTime modules =
      if ((mx - mn).natAbs + 86399999) / 86400000 + 1 > 30 then
        toString ((2 * (((mx - mn).natAbs + 86399999) / 86400000 + 1) + 7) / 14)
          ++ " weeks"
      else
        toString (((mx - mn).natAbs + 86399999) / 86400000 + 1) ++ " days" := by
  have hst_min : ((allTasks modules).foldl scanTask ⟨jsMaxMs, -jsMaxMs, false⟩).minMs
      = mn := by
    rw [foldl_scanTask_minMs]
    refine foldl_min_eq _ _ _ hmn_mem hmn_min ?_
    have := (startMs_bounds (allTasks modules) hvalid mn hmn_mem).2
    simp only [msPerDay] at this
    simp only [jsMaxMs]
    omega
  have hst_max : ((allTasks modules).foldl scanTask ⟨jsMaxMs, -jsMaxMs, false⟩).maxMs
      = mx := by
    rw [foldl_scanTask_maxMs]
    refine foldl_max_eq _ _ _ hmx_mem hmx_max ?_
    have := (endMs_bounds (allTasks modules) hvalid mx hmx_mem).1
    simp only [msPerDay] at this
    simp only [jsMaxMs]
    omega
  have hst_has : ((allTasks modules).foldl scanTask
      ⟨jsMaxMs, -jsMaxMs, false⟩).hasDates = true := by
    rw [foldl_scanTask_hasDates]
    rcases List.mem_filterMap.mp hmn_mem with ⟨t, ht, hft⟩
    cases hs : t.startDate with
    | empty => rw [hs] at hft; cases hft
    | date s =>
      have hset : t.startDate.isSet = true := by rw [hs]; rfl
      have hany : (allTasks modules).any (fun t => t.startDate.isSet) = true :=
        List.any_eq_true.mpr ⟨t, ht, hset⟩
      simp [hany]
  simp only [recalculateTotalTime, foldl_scan_modules, hst_min, hst_max, hst_has,
    Bool.not_true, Bool.false_eq_true, if_false]

/-- Witness for C6: one module, tasks spanning day 0 to day 34 — 35
inclusive days, rendered as the nearest whole number of weeks, "5
weeks". -/
theorem recalculateTotalTime_span_witness :
    recalculateTotalTime
        [sampleModule "m1" [sampleTask "a" (.date 0) (.date 34),
                            sampleTask "b" (.date 2) .empty]]
      = "5 weeks" :=
  (recalculateTotalTime_span
    [sampleModule "m1" [sampleTask "a" (.date 0) (.date 34),
                        sampleTask "b" (.date 2) .empty]]
    0 (34 * 86400000)
    (by decide) (by decide) (by decide) (by decide) (by decide)).trans (by decide)

/-! ### C8: order invariance of the scan -/

/-- The instant a (startDate, endDate) pair contributes to the running
minimum. -/
def pairMinCand (p : DateStr × DateStr) : Option Int :=
  match p.1 with
  | .date s => some (s * msPerDay)
  | .empty => none

/-- The instant a (startDate, endDate) pair contributes to the running
maximum. -/
def pairMaxCand (p : DateStr × DateStr) : Option Int :=
  match p.2 with
  | .date e => some (e * msPerDay)
  | .empty =>
    match p.1 with
    | .date s => some (s * msPerDay)
    | .empty => none

/-- `scanTask` only looks at the two dates of the task: the same
update on a bare (startDate, endDate) pair. -/
def scanPair (st : ScanState) (p : DateStr × DateStr) : ScanState :=
  let st1 :=
    match p.1 with
    | .date s =>
      { st with minMs := if s * msPerDay < st.minMs then s * msPerDay else st.minMs,
                hasDates := true }
    | .empty => st
  match p.2, p.1 with
  | .date e, _ =>
    { st1 with maxMs := if e * msPerDay > st1.maxMs then e * msPerDay else st1.maxMs }
  | .empty, .date s =>
    { st1 with maxMs := if s * msPerDay > st1.maxMs then s * msPerDay else st1.maxMs }
  | .empty, .empty => st1

theorem scanPair_minMs (st : ScanState) (p : DateStr × DateStr) :
    (scanPair st p).minMs =
      match pairMinCand p with
      | some x => min st.minMs x
      | none => st.minMs := by
  rcases p with ⟨ps, pe⟩
  cases ps <;> cases pe <;> simp [scanPair, pairMinCand, if_lt_eq_min]

theorem scanPair_maxMs (st : ScanState) (p : DateStr × DateStr) :
    (scanPair st p).maxMs =
      match pairMaxCand p with
      | some x => max st.maxMs x
      | none => st.maxMs := by
  rcases p with ⟨ps, pe⟩
  cases ps <;> cases pe <;> simp [scanPair, pairMaxCand, if_gt_eq_max]

theorem scanPair_hasDates (st : ScanState) (p : DateStr × DateStr) :
    (scanPair st p).hasDates = (st.hasDates || (p.1).isSet) := by
  rcases p with ⟨ps, pe⟩
  cases ps <;> cases pe <;> simp [scanPair, DateStr.isSet]

theorem scanState_ext (a b : ScanState) (h1 : a.minMs = b.minMs)
    (h2 : a.maxMs = b.maxMs) (h3 : a.hasDates = b.hasDates) : a = b := by
  cases a; cases b
  simp only at h1 h2 h3
  rw [h1, h2, h3]

theorem scanPair_comm (st : ScanState) (p q : DateStr × DateStr) :
    scanPair (scanPair st p) q = scanPair (scanPair st q) p := by
  apply scanState_ext
  · simp only [scanPair_minMs]
    cases hp : pairMinCand p <;> cases hq : pairMinCand q <;>
      simp [min_right_comm]
  · simp only [scanPair_maxMs]
    cases hp : pairMaxCand p <;> cases hq : pairMaxCand q <;>
      simp [sup_right_comm]
  · simp only [scanPair_hasDates]
    cases (p.1).isSet <;> cases (q.1).isSet <;> simp

theorem foldl_perm_of_comm {α β : Type} (f : β → α → β)
    (hcomm : ∀ st a b, f (f st a) b = f (f st b) a) {l1 l2 : List α}
    (h : l1.Perm l2) : ∀ st : β, l1.foldl f st = l2.foldl f st := by
  induction h with
  | nil => intro st; rfl
  | cons x _ ih => intro st; simp only [List.foldl_cons]; exact ih _
  | swap x y l => intro st; simp only [List.foldl_cons, hcomm]
  | trans _ _ ih1 ih2 => intro st; rw [ih1, ih2]

theorem foldl_scan_pairs (L : List Task) (st : ScanState) :
    L.foldl scanTask st
      = (L.map fun t => (t.startDate, t.endDate)).foldl scanPair st := by
  rw [List.foldl_map]
  induction L generalizing st with
  | nil => rfl
  | cons t ts ih =>
    simp only [List.foldl_cons]
    rw [show scanPair st (t.startDate, t.endDate) = scanTask st t from rfl]
    exact ih _

/-- C8: `recalculateTotalTime` only depends on the multiset of
(startDate, endDate) pairs of the tasks: any two module sequences
whose tasks carry permuted date pairs — in particular any reordering
of modules or of tasks within modules — get the same summary string. -/
theorem recalculateTotalTime_perm_invariant (ms1 ms2 : List Module)
    (hperm : List.Perm ((allTasks ms1).map fun t => (t.startDate, t.endDate))
                       ((allTasks ms2).map fun t => (t.startDate, t.endDate))) :
    recalculateTotalTime ms1 = recalculateTotalTime ms2 := by
  have h : (allTasks ms1).foldl scanTask ⟨jsMaxMs, -jsMaxMs, false⟩
      = (allTasks ms2).foldl scanTask ⟨jsMaxMs, -jsMaxMs, false⟩ := by
    rw [foldl_scan_pairs, foldl_scan_pairs]
    exact foldl_perm_of_comm scanPair scanPair_comm hperm _
  simp only [recalculateTotalTime, foldl_scan_modules, h]

/-- Witness for C8: one roadmap with both tasks in one module, another
with the same date pairs split across two modules in the opposite
order (and different ids and titles). -/
theorem recalculateTotalTime_perm_invariant_witness :
    List.Perm
      ((allTasks [sampleModule "m1" [sampleTask "a" (.date 0) .empty,
                                     sampleTask "b" (.date 3) (.date 5)]]).map
        fun t => (t.startDate, t.endDate))
      ((allTasks [sampleModule "x" [sampleTask "c" (.date 3) (.date 5)],
                  sampleModule "y" [sampleTask "d" (.date 0) .empty]]).map
        fun t => (t.startDate, t.endDate)) ∧
    recalculateTotalTime [sampleModule "m1" [sampleTask "a" (.date 0) .empty,
                                             sampleTask "b" (.date 3) (.date 5)]]
      = recalculateTotalTime [sampleModule "x" [sampleTask "c" (.date 3) (.date 5)],
                              sampleModule "y" [sampleTask "d" (.date 0) .empty]] :=
  ⟨by decide,
   recalculateTotalTime_perm_invariant
     [sampleModule "m1" [sampleTask "a" (.date 0) .empty,
                         sampleTask "b" (.date 3) (.date 5)]]
     [sampleModule "x" [sampleTask "c" (.date 3) (.date 5)],
      sampleModule "y" [sampleTask "d" (.date 0) .empty]]
     (by decide)⟩

end AIStudyRoadmap
